import Mathlib

set_option maxRecDepth 8000

/-!
Verification development for the AgentIQ ReWOO agent sources: the plan-line
regular expression from `aiq/agent/rewoo_agent/prompt.py`, workflow
construction and response handling from `aiq/agent/rewoo_agent/register.py`,
the job store from `aiq/front_ends/fastapi/job_store.py`, and the dataset
handler from `aiq/eval/dataset_handler/dataset_handler.py`.

Python values are modelled with plain Lean structures; Python dynamic
failures (TypeError on subscripting a pydantic model, for example) are
modelled with `Except`.  Strings are processed as `List Char`; the ASCII
fragment of the `re` character classes (sufficient for every input the
claims concern) is used for `\s`, `\d` and `\w`.
-/

-- ===================================================================
-- Character classes of the regex  r"Plan:\s*(.+)\s*(#E\d+)\s*=\s*(\w+)\s*\[([^\]]+)\]"
-- (prompt.py line 53).
-- ===================================================================

/-- Python regex class `\s` (ASCII fragment): space, tab, newline, carriage
return, vertical tab, form feed. -/
def isWsC (c : Char) : Bool :=
  decide (c = ' ' ∨ c = '\t' ∨ c = '\n' ∨ c = '\r' ∨ c = '\x0B' ∨ c = '\x0C')

/-- Python regex class `\d`. -/
def isDigC (c : Char) : Bool := c.isDigit

/-- Python regex class `\w` (ASCII fragment): letters, digits, underscore. -/
def isWordC (c : Char) : Bool := c.isAlphanum || decide (c = '_')

/-- Characters matched by `.` (anything but a newline). -/
def notNl (c : Char) : Bool := decide (¬ (c = '\n'))

/-- Characters matched by the class `[^\]]`. -/
def notRBr (c : Char) : Bool := decide (¬ (c = ']'))

/-- Boolean test that `a` is a prefix of `b`. -/
def prefB : List Char → List Char → Bool
  | [], _ => true
  | _ :: _, [] => false
  | a :: as, b :: bs => if a = b then prefB as bs else false

/-- Boolean test that the token `tok` occurs as a contiguous substring. -/
def hasTok (tok : List Char) : List Char → Bool
  | [] => false
  | c :: cs => prefB tok (c :: cs) || hasTok tok cs

/-- String-level wrapper of `hasTok` (Python `tok in s`). -/
def containsTok (tok s : String) : Bool := hasTok tok.toList s.toList

/-- The literal `Plan:` that starts every regex match. -/
def planTok : List Char := ['P', 'l', 'a', 'n', ':']

-- ===================================================================
-- Operational embedding of the compiled pattern `rewoo_plan_pattern`.
--
-- The tail `\s*(#E\d+)\s*=\s*(\w+)\s*\[([^\]]+)\]` is deterministic under
-- backtracking: every `\s*`, `\d+`, `\w+` and `[^\]]+` run is followed by a
-- character disjoint from its class (`#`, `=`, `[`, `]` are neither
-- whitespace, digits nor word characters, and `]` is excluded from
-- `[^\]]`), so the greedy extent is the only extent that can succeed.  The
-- only genuine backtracking is in `Plan:\s*(.+)` and is searched explicitly
-- below (`tryDlen`, `trySkips`), longest first, exactly as the engine does.
-- ===================================================================

/-- Greedy `\s*`. -/
def skipWs (cs : List Char) : List Char := cs.dropWhile isWsC

/-- Consume one expected literal character. -/
def expectChar (ch : Char) : List Char → Option (List Char)
  | [] => none
  | x :: xs => if x = ch then some xs else none

/-- Greedy nonempty run of a character class (`\d+`, `\w+`, `[^\]]+`). -/
def takeRun (p : Char → Bool) (cs : List Char) : Option (List Char × List Char) :=
  let run := cs.takeWhile p
  if run.isEmpty then none else some (run, cs.dropWhile p)

/-- Captures of the regex tail together with the remaining text. -/
structure TailMatch where
  ds : List Char
  tool : List Char
  inp : List Char
  rem : List Char
deriving DecidableEq

/-- Matcher for the tail `\s*#E(\d+)\s*=\s*(\w+)\s*\[([^\]]+)\]` at the head
of the input (deterministic, see the section comment). -/
def matchTailREF (cs : List Char) : Option TailMatch :=
  (expectChar '#' (skipWs cs)).bind fun r1 =>
  (expectChar 'E' r1).bind fun r2 =>
  (takeRun isDigC r2).bind fun pds =>
  (expectChar '=' (skipWs pds.2)).bind fun r4 =>
  (takeRun isWordC (skipWs r4)).bind fun ptool =>
  (expectChar '[' (skipWs ptool.2)).bind fun r6 =>
  (takeRun notRBr r6).bind fun pinp =>
  (expectChar ']' pinp.2).bind fun r8 =>
  some ⟨pds.1, ptool.1, pinp.1, r8⟩

/-- Backtracking over the extent of `(.+)`: description lengths are tried
longest first, mirroring the greedy engine.  `s` is the text at the start
position of `(.+)`. -/
def tryDlen (s : List Char) : Nat → Option (List Char × TailMatch)
  | 0 => none
  | n + 1 =>
    match matchTailREF (s.drop (n + 1)) with
    | some tm => some (s.take (n + 1), tm)
    | none => tryDlen s n

/-- Search all `(.+)` extents at one `\s*` extent: the maximal extent is the
run of non-newline characters. -/
def descSearch (s : List Char) : Option (List Char × TailMatch) :=
  tryDlen s (s.takeWhile notNl).length

/-- Backtracking over the extent of the `\s*` before `(.+)`, longest
first. -/
def trySkips (r : List Char) : Nat → Option (List Char × TailMatch)
  | 0 => descSearch r
  | w + 1 =>
    match descSearch (r.drop (w + 1)) with
    | some res => some res
    | none => trySkips r w

/-- One parsed plan step: the four capture groups of `rewoo_plan_pattern`
(description, evidence token `#E<n>`, tool name, bracketed tool input). -/
structure PlanStep where
  desc : List Char
  evidence : List Char
  tool : List Char
  tool_input : List Char
deriving DecidableEq

/-- Attempt to match `rewoo_plan_pattern` anchored at the head of `cs`,
returning the captures and the text after the match. -/
def matchPlanREF (cs : List Char) : Option (PlanStep × List Char) :=
  if prefB planTok cs then
    (trySkips (cs.drop 5) ((cs.drop 5).takeWhile isWsC).length).bind fun dtm =>
    some (⟨dtm.1, '#' :: 'E' :: dtm.2.ds, dtm.2.tool, dtm.2.inp⟩, dtm.2.rem)
  else none

/-- Fueled scanner implementing `re.findall`: try each start position left
to right; on a match, record the groups and resume after the match. -/
def rewooFindAllFuel : Nat → List Char → List PlanStep
  | 0, _ => []
  | _, [] => []
  | fuel + 1, c :: cs =>
    match matchPlanREF (c :: cs) with
    | some (st, rem) => st :: rewooFindAllFuel fuel rem
    | none => rewooFindAllFuel fuel cs

/-- Plan Parser.  Modelled from the spec: the parser itself lives in
`rewoo_agent/agent.py`, which is not among the provided sources; the spec
(section 4.1) describes it as scanning the text for every occurrence of
`rewoo_plan_pattern` in order, ignoring non-matching text, which is exactly
`re.findall(rewoo_plan_pattern, text)`.  The pattern itself is from
`prompt.py` line 53 and is source authority. -/
def rewooFindAll (cs : List Char) : List PlanStep := rewooFindAllFuel cs.length cs

/-- Existence of a match of `rewoo_plan_pattern` anywhere in the text
(Python `re.search(...) is not None`). -/
def hasPlanMatch : List Char → Bool
  | [] => false
  | c :: cs => (matchPlanREF (c :: cs)).isSome || hasPlanMatch cs

-- ===================================================================
-- Declarative characterizations of the pattern.
-- ===================================================================

/-- All characters of a segment are regex whitespace. -/
def WsStr (w : List Char) : Prop := ∀ c ∈ w, isWsC c = true

/-- Declarative reading of `rewoo_plan_pattern`: the text decomposes as
arbitrary text, the literal `Plan:`, whitespace, a nonempty newline-free
description, whitespace, `#E` with one or more digits, whitespace, `=`,
whitespace, a nonempty word-character tool name, whitespace, and a
bracketed nonempty input free of `]`, followed by arbitrary text.  For
match existence this is exactly the language of the regex. -/
def PlanDecomp (cs : List Char) : Prop :=
  ∃ a w1 d w2 ds w3 w4 t w5 inp b : List Char,
    cs = a ++ planTok ++ w1 ++ d ++ w2 ++ ['#', 'E'] ++ ds ++ w3 ++ ['='] ++
      w4 ++ t ++ w5 ++ ['['] ++ inp ++ [']'] ++ b ∧
    WsStr w1 ∧ WsStr w2 ∧ WsStr w3 ∧ WsStr w4 ∧ WsStr w5 ∧
    d ≠ [] ∧ (∀ c ∈ d, notNl c = true) ∧
    ds ≠ [] ∧ (∀ c ∈ ds, isDigC c = true) ∧
    t ≠ [] ∧ (∀ c ∈ t, isWordC c = true) ∧
    inp ≠ [] ∧ (∀ c ∈ inp, notRBr c = true)

/-- The plan-line grammar exactly as claim C1 words it: the line contains,
in order, `Plan:`, a nonempty free-text description, `#E` plus digits, `=`,
a word identifier, and a bracket-delimited input which may be empty and may
contain `]`; the whole match sits on a single line (no newline anywhere in
the line). -/
def ClaimLineGrammar (cs : List Char) : Prop :=
  ∃ a w1 d w2 ds w3 w4 t w5 inp b : List Char,
    cs = a ++ planTok ++ w1 ++ d ++ w2 ++ ['#', 'E'] ++ ds ++ w3 ++ ['='] ++
      w4 ++ t ++ w5 ++ ['['] ++ inp ++ [']'] ++ b ∧
    WsStr w1 ∧ WsStr w2 ∧ WsStr w3 ∧ WsStr w4 ∧ WsStr w5 ∧
    d ≠ [] ∧ ds ≠ [] ∧ (∀ c ∈ ds, isDigC c = true) ∧
    t ≠ [] ∧ (∀ c ∈ t, isWordC c = true) ∧
    (∀ c ∈ cs, notNl c = true)

/-- A text that is, in its entirety, one occurrence of the plan-line
grammar (a full anchored match of the pattern). -/
def FullPlanDecomp (cs : List Char) : Prop :=
  ∃ w1 d w2 ds w3 w4 t w5 inp : List Char,
    cs = planTok ++ w1 ++ d ++ w2 ++ ['#', 'E'] ++ ds ++ w3 ++ ['='] ++
      w4 ++ t ++ w5 ++ ['['] ++ inp ++ [']'] ∧
    WsStr w1 ∧ WsStr w2 ∧ WsStr w3 ∧ WsStr w4 ∧ WsStr w5 ∧
    d ≠ [] ∧ (∀ c ∈ d, notNl c = true) ∧
    ds ≠ [] ∧ (∀ c ∈ ds, isDigC c = true) ∧
    t ≠ [] ∧ (∀ c ∈ t, isWordC c = true) ∧
    inp ≠ [] ∧ (∀ c ∈ inp, notRBr c = true)

-- ===================================================================
-- Canonical plan texts (the format of the prompt's own examples:
-- "Plan: <desc>\n#E<n> = <tool>[<input>]", with prose around them).
-- ===================================================================

/-- Canonical rendering of one plan step, the format the system prompt
instructs the model to produce. -/
def renderStep (st : PlanStep) : List Char :=
  planTok ++ [' '] ++ st.desc ++ ['\n'] ++ st.evidence ++ [' ', '=', ' '] ++
    st.tool ++ ['['] ++ st.tool_input ++ [']']

/-- Well-formedness of a step for canonical rendering: nonempty description
that neither starts with whitespace nor contains a newline, an evidence
token `#E<digits>`, a word-character tool name, and a nonempty `]`-free
input. -/
def goodStep (st : PlanStep) : Bool :=
  !st.desc.isEmpty && !(st.desc.take 1).any isWsC && st.desc.all notNl &&
  prefB ['#', 'E'] st.evidence &&
  !(st.evidence.drop 2).isEmpty && (st.evidence.drop 2).all isDigC &&
  !st.tool.isEmpty && st.tool.all isWordC &&
  !st.tool_input.isEmpty && st.tool_input.all notRBr

/-- Interleaving of prose and canonically rendered plan steps: the leading
prose, then alternately a rendered step and the prose following it. -/
def canonText (p0 : List Char) : List (PlanStep × List Char) → List Char
  | [] => p0
  | (st, p) :: rest => p0 ++ renderStep st ++ canonText p rest

-- ===================================================================
-- job_store.py
-- ===================================================================

/-- JobStatus enum of job_store.py. -/
inductive JobStatus
  | submitted
  | running
  | success
  | failure
  | interrupted
  | not_found
deriving DecidableEq

/-- The pydantic model JobInfo (datetimes are modelled as Nat timestamps). -/
structure JobInfo where
  job_id : String
  status : JobStatus
  config_file : String
  error : Option String
  output_path : Option String
  created_at : Nat
  updated_at : Nat
  expiry_seconds : Int
deriving DecidableEq

def MIN_EXPIRY : Int := 600

def MAX_EXPIRY : Int := 86400

def DEFAULT_EXPIRY : Int := 3600

/-- Membership in ACTIVE_STATUS, the set of statuses exempt from expiry. -/
def activeStatus (s : JobStatus) : Bool :=
  decide (s = JobStatus.running) || decide (s = JobStatus.submitted)

/-- Python dict assignment `d[k] = v`: replace in place when the key
exists, else append (insertion order preserved). -/
def dictInsert (l : List (String × JobInfo)) (k : String) (v : JobInfo) :
    List (String × JobInfo) :=
  if l.any (fun p => decide (p.1 = k)) then
    l.map (fun p => if p.1 = k then (k, v) else p)
  else l ++ [(k, v)]

/-- Python dict lookup `d.get(k)`. -/
def dictLookup (l : List (String × JobInfo)) (k : String) : Option JobInfo :=
  match l with
  | [] => none
  | p :: rest => if p.1 = k then some p.2 else dictLookup rest k

/-- The JobStore: its only state is the `_jobs` dict. -/
structure JobStore where
  _jobs : List (String × JobInfo)
deriving DecidableEq

/-- JobStore.create_job (job_store.py lines 61-79).  The uuid4 branch is
abstracted by taking the job id as a parameter, and `datetime.now(UTC)` by
the `now` parameter. -/
def create_job (store : JobStore) (config_file : String) (job_id : String)
    (now : Nat) (expiry_seconds : Int) : String × JobStore :=
  let clamped_expiry := max MIN_EXPIRY (min expiry_seconds MAX_EXPIRY)
  let job : JobInfo :=
    { job_id := job_id
      status := JobStatus.submitted
      config_file := config_file
      created_at := now
      updated_at := now
      error := none
      output_path := none
      expiry_seconds := clamped_expiry }
  (job_id, ⟨dictInsert store._jobs job_id job⟩)

/-- Python dynamic failures raised by cleanup_expired_jobs. -/
inductive PyError
  | typeError (msg : String)
  | attributeError (msg : String)
deriving DecidableEq

/-- Python subscript `job["created_at"]` on a JobInfo: pydantic BaseModel
defines no `__getitem__`, so the subscript raises TypeError
(job_store.py lines 131 and 138 index JobInfo objects this way). -/
def jobInfoGetItem (_ : JobInfo) (_ : String) : Except PyError Nat :=
  Except.error (PyError.typeError "JobInfo object is not subscriptable")

/-- Python `sorted(xs, key=f)`: the key is evaluated on every element
before sorting, so the first raising key aborts the sort. -/
def sortKeyE (key : String × JobInfo → Except PyError Nat) :
    List (String × JobInfo) → Except PyError (List ((String × JobInfo) × Nat))
  | [] => Except.ok []
  | x :: xs => do
    let k ← key x
    let rest ← sortKeyE key xs
    Except.ok ((x, k) :: rest)

/-- JobStore.cleanup_expired_jobs (job_store.py lines 124-142).  With no
finished job the sort, comprehension and delete loop all run over empty
collections and the store is untouched; with at least one finished job the
sort key `item[1]["created_at"]` subscripts a JobInfo and raises (and the
later `job["created_at"]`, `job.get(...)` and `self.jobs` accesses are
equally invalid for the store's pydantic values and `_jobs` attribute). -/
def cleanup_expired_jobs (store : JobStore) (_now : Nat) : Except PyError JobStore := do
  let finished := store._jobs.filter (fun p => !(activeStatus p.2.status))
  let _sorted ← sortKeyE (fun p => jobInfoGetItem p.2 "created_at") finished
  Except.ok store

-- ===================================================================
-- dataset_handler.py
-- ===================================================================

/-- Quote a string as a JSON literal (escaping elided; no claim depends on
it). -/
def jsonStr (s : String) : String := "\"" ++ s ++ "\""

/-- A three-key JSON object as json.dumps renders it (indent layout
elided). -/
def jsonObj3 (k1 v1 k2 v2 k3 v3 : String) : String :=
  "\x7b" ++ jsonStr k1 ++ ": " ++ jsonStr v1 ++ ", " ++ jsonStr k2 ++ ": " ++
    jsonStr v2 ++ ", " ++ jsonStr k3 ++ ": " ++ jsonStr v3 ++ "\x7d"

/-- EvalInputItem (the fields the dataset-handler claims concern;
trajectories are not read by any claim and are elided). -/
structure EvalInputItem where
  id : String
  input_obj : String
  expected_output_obj : String
  output_obj : String
deriving DecidableEq

/-- EvalInput wraps the list of items. -/
structure EvalInput where
  eval_input_items : List EvalInputItem
deriving DecidableEq

/-- One row of the pandas DataFrame: the columns the handler reads, each
possibly null. -/
structure EvalRow where
  id : String
  question : Option String
  answer : Option String
  generated_answer : Option String
deriving DecidableEq

/-- Python `row.get(key, "")` (also covers the `fillna("")` on the answer
column, which makes nulls the empty string). -/
def rowGet (v : Option String) : String := v.getD ""

/-- Python `str.strip()`. -/
def pstrip (s : String) : String := s.trim

/-- Python `row.to_json()` for the unstructured branch. -/
def rowToJson (r : EvalRow) : String :=
  "\x7b" ++ jsonStr "id" ++ ": " ++ jsonStr r.id ++ ", " ++
    jsonStr "question" ++ ": " ++ jsonStr (rowGet r.question) ++ ", " ++
    jsonStr "answer" ++ ": " ++ jsonStr (rowGet r.answer) ++ ", " ++
    jsonStr "generated_answer" ++ ": " ++ jsonStr (rowGet r.generated_answer) ++ "\x7d"

/-- The helper create_eval_item of get_eval_input_from_df
(dataset_handler.py lines 76-85). -/
def create_eval_item (structured : Bool) (r : EvalRow) : EvalInputItem :=
  { id := r.id
    input_obj := if structured then rowGet r.question else rowToJson r
    expected_output_obj := if structured then rowGet r.answer else ""
    output_obj := if structured then rowGet r.generated_answer else "" }

/-- The row filter of line 96: question not null and not whitespace-only
(`notnull` and `str.strip().ne("")`). -/
def questionOk (r : EvalRow) : Bool :=
  match r.question with
  | none => false
  | some q => if pstrip q = "" then false else true

/-- DatasetHandler.get_eval_input_from_df (dataset_handler.py lines
74-99). -/
def get_eval_input_from_df (structured : Bool) (df : List EvalRow) : EvalInput :=
  if df.isEmpty then ⟨[]⟩
  else
    let df2 := if structured then df.filter questionOk else df
    ⟨df2.map (create_eval_item structured)⟩

/-- The serialization of publish_ground_truth (lines 180-186): one object
per item with the id, question and answer keys. -/
def publishGroundTruthJson (id_key question_key answer_key : String)
    (inp : EvalInput) : String :=
  "[" ++ String.intercalate ", " (inp.eval_input_items.map (fun it =>
    jsonObj3 id_key it.id question_key it.input_obj answer_key it.expected_output_obj)) ++ "]"

/-- DatasetHandler.publish_ground_truth (dataset_handler.py lines 170-186).
The guard on lines 176-177 reads `if not self.is_structured_input(): None`;
the `None` is a bare expression statement, not a return, so its value is
discarded and execution always continues to the serialization and the
final return. -/
def publish_ground_truth (structured : Bool)
    (id_key question_key answer_key : String) (inp : EvalInput) : Option String :=
  let _guard : Option String := if !structured then none else none
  some (publishGroundTruthJson id_key question_key answer_key inp)

-- ===================================================================
-- register.py
-- ===================================================================

/-- ReWOOAgentWorkflowConfig with its defaults (register.py lines 34-58). -/
structure ReWOOAgentWorkflowConfig where
  tool_names : List String := []
  llm_name : String := "llm"
  verbose : Bool := false
  retry_parsing_errors : Bool := true
  max_retries : Nat := 1
  include_tool_input_schema_in_tool_description : Bool := true
  max_iterations : Nat := 15
  description : String := "ReWOO Agent Workflow"
  system_prompt : Option String := none
  max_history : Nat := 15
  use_openai_api : Bool := false
  additional_instructions : Option String := none
deriving DecidableEq

/-- The default SYSTEM_PROMPT of prompt.py (lines 20-48; the backslash line
continuations of the Python literal join lines without a newline). -/
def SYSTEM_PROMPT : String :=
  "\nFor the following task, make plans that can solve the problem step by step. For each plan, indicate which external tool together with tool input to retrieve evidence. You can store the evidence into a variable #E that can be called by later tools. (Plan, #E1, Plan, #E2, Plan, ...)\n\nYou may ask the human to the following tools:\n\n{tools}\n\nThe tools should be one of the following: [{tool_names}]\n\nPlease not that you don't need to use all the tools. You can use any of the tools you want.\nMake sure to follow the pattern: #E = tool_name[tool_input]\n\nFor example,\nTask: Determine which is greater: the result of subtracting 13 from 25, or the result of dividing 132 by 12.\n\nPlan: Calculate the result of 25 minus 13.\n#E1 = calculator_subtract[25, 13]\n\nPlan: Calculate the result of 132 divided by 12.\n#E2 = calculator_divide[132, 12]\n\nPlan: Compare the results from steps 1 and 2 to determine which is greater.\n#E3 = calculator_inequality[#E1, \">\", #E2]\n\nBegin!\nDescribe your plans with rich details. Each Plan should be followed by only one #E.\n"

/-- The local `_prompt_str` of register.py lines 76-79: assigned only inside
the `if config.system_prompt:` branch — a Python truthiness test, so None
and the empty string both skip it — with the additional instructions
appended only when `if config.additional_instructions:` is itself truthy.
The variable is written and never read again. -/
def promptStrLocal (cfg : ReWOOAgentWorkflowConfig) : Option String :=
  match cfg.system_prompt with
  | some sp =>
    if sp = "" then none
    else
      some (match cfg.additional_instructions with
            | some ai => if ai = "" then sp else sp ++ " " ++ ai
            | none => sp)
  | none => none

/-- The system segment actually handed to ChatPromptTemplate (register.py
lines 76-87): `config.system_prompt` itself in the truthy custom branch —
not the local `_prompt_str` — and the default SYSTEM_PROMPT otherwise; an
absent or empty custom prompt falls through to the default
rewoo_agent_prompt, because `if config.system_prompt:` tests Python
truthiness. -/
def systemPromptUsed (cfg : ReWOOAgentWorkflowConfig) : String :=
  match cfg.system_prompt with
  | some sp => if sp = "" then SYSTEM_PROMPT else sp
  | none => SYSTEM_PROMPT

/-- Modelled from the spec: `ReWOOAgentGraph.validate_system_prompt` is
defined in `rewoo_agent/agent.py`, which is not among the provided sources.
The spec (section 4.4) says a caller-supplied system prompt is checked for
the presence of the required template placeholders (tool list, tool names,
task) before use. -/
def validate_system_prompt (p : String) : Bool :=
  containsTok "{tools}" p && containsTok "{tool_names}" p && containsTok "{task}" p

/-- Observable construction events of ReWOO_agent_workflow, in execution
order. -/
inductive BuildEvent
  | raisedValueError
  | gotLLM
  | gotTools
  | builtGraph
deriving DecidableEq

/-- Event trace of ReWOO_agent_workflow construction (register.py lines
76-102).  Line 76 reads `if config.system_prompt:` — a Python truthiness
test, so the custom branch runs only for a supplied, non-empty prompt; an
absent or empty prompt skips validation entirely and uses the default
prompt.  Inside the truthy branch, validation runs first and an invalid
prompt raises ValueError before builder.get_llm (line 90), builder.get_tools
(line 93) or the graph build (line 96); no language-model call occurs during
construction. -/
def buildEvents (cfg : ReWOOAgentWorkflowConfig) : List BuildEvent :=
  match cfg.system_prompt with
  | some sp =>
    if sp = "" then
      [BuildEvent.gotLLM, BuildEvent.gotTools, BuildEvent.builtGraph]
    else if validate_system_prompt sp then
      [BuildEvent.gotLLM, BuildEvent.gotTools, BuildEvent.builtGraph]
    else
      [BuildEvent.raisedValueError]
  | none => [BuildEvent.gotLLM, BuildEvent.gotTools, BuildEvent.builtGraph]

/-- Exceptions that can escape `graph.ainvoke`: langgraph's
GraphRecursionError when the recursion limit is exceeded, and everything
else. -/
inductive GraphFailure
  | graphRecursionError (msg : String)
  | otherError (msg : String)
deriving DecidableEq

/-- Python `str(ex)`. -/
def failureText : GraphFailure → String
  | GraphFailure.graphRecursionError m => m
  | GraphFailure.otherError m => m

/-- The recursion limit passed to `graph.ainvoke` (register.py line 117). -/
def recursion_limit (max_iterations : Nat) : Nat := (max_iterations + 1) * 2

/-- The `_response_fn` of register.py (lines 104-132) after the graph
invocation resolves: a successful run returns the state's result; any
exception is caught by the single `except Exception` handler, which returns
`str(ex)` in verbose mode and a fixed generic message otherwise. -/
def response_fn (verbose : Bool) (graphResult : Except GraphFailure String) : String :=
  match graphResult with
  | Except.ok result => result
  | Except.error ex => if verbose then failureText ex else "I seem to be having a problem."

/-- The head of `b`, if any, fails the class `p` (boundary condition that
makes a greedy run stop exactly at the end of its segment). -/
def headNotP (p : Char → Bool) : List Char → Prop
  | [] => True
  | c :: _ => p c = false

-- ===================================================================
-- Concrete instances used by witnesses.
-- ===================================================================

/-- Configuration with a custom prompt and additional instructions. -/
def cfgC4 : ReWOOAgentWorkflowConfig :=
  { system_prompt := some "S", additional_instructions := some "EXTRA" }

/-- Configuration whose custom prompt is missing every placeholder. -/
def cfgC5 : ReWOOAgentWorkflowConfig := { system_prompt := some "hello" }

/-- Configuration supplying the empty string as its custom prompt. -/
def cfgC5empty : ReWOOAgentWorkflowConfig := { system_prompt := some "" }

/-- A job store holding one finished job. -/
def storeC7 : JobStore :=
  ⟨[("j1", { job_id := "j1", status := JobStatus.success, config_file := "cfg",
             error := none, output_path := none, created_at := 0, updated_at := 5,
             expiry_seconds := 3600 })]⟩

/-- Leading prose of a canonical two-step plan text. -/
def wP0 : List Char := "I will make plans.\n".toList

/-- Two well-formed steps with prose after each, in the prompt's example
format. -/
def wSteps : List (PlanStep × List Char) :=
  [ (⟨"Find the number".toList, "#E1".toList, "search".toList, "the query".toList⟩,
      "\nthen\n".toList),
    (⟨"Compare".toList, "#E2".toList, "math".toList, "#E1, 5".toList⟩,
      "\ndone".toList) ]

/-- A two-row structured dataset: one blank question, one real question. -/
def dfC9 : List EvalRow :=
  [ { id := "r1", question := some "  ", answer := some "a1", generated_answer := none },
    { id := "r2", question := some "why", answer := none, generated_answer := some "g2" } ]

-- ===================================================================
-- Theorems.
-- ===================================================================

/-- Looking up the key just inserted returns the inserted value. -/
theorem dictLookup_dictInsert (l : List (String × JobInfo)) (k : String) (v : JobInfo) :
    dictLookup (dictInsert l k v) k = some v := by
  unfold dictInsert
  by_cases hany : l.any (fun p => decide (p.1 = k)) = true
  · rw [if_pos hany]
    induction l with
    | nil => simp at hany
    | cons p rest ih =>
      by_cases hpk : p.1 = k
      · simp [dictLookup, hpk]
      · have hrest : rest.any (fun p => decide (p.1 = k)) = true := by
          simp only [List.any_cons, Bool.or_eq_true, decide_eq_true_eq] at hany
          rcases hany with h | h
          · exact absurd h hpk
          · exact h
        simp only [List.map_cons, if_neg hpk]
        rw [dictLookup, if_neg hpk]
        exact ih hrest
  · rw [if_neg hany]
    induction l with
    | nil => simp [dictLookup]
    | cons p rest ih =>
      have hpk : ¬ p.1 = k := by
        intro hEq
        exact hany (by simp [List.any_cons, hEq])
      have hrest : ¬ rest.any (fun p => decide (p.1 = k)) = true := by
        intro h
        exact hany (by simp [List.any_cons, h])
      rw [List.cons_append, dictLookup, if_neg hpk]
      exact ih hrest

/-- Claim C6: every exception escaping the graph invocation is caught and
turned into a response string: the raw text `str(ex)` when verbose is
enabled, the fixed generic message when it is disabled. -/
theorem response_fn_catches_all (ex : GraphFailure) :
    response_fn true (Except.error ex) = failureText ex ∧
    response_fn false (Except.error ex) = "I seem to be having a problem." :=
  ⟨rfl, rfl⟩

/-- Claim C3 counterexample: with verbose disabled, a recursion-limit
failure produces the very same response as an ordinary parse or dispatch
failure, so it is not reported as a distinct failure kind. -/
theorem recursion_limit_not_distinct_cex :
    response_fn false (Except.error (GraphFailure.graphRecursionError
      "Recursion limit of 32 reached")) =
    response_fn false (Except.error (GraphFailure.otherError
      "failed to parse planner output")) := rfl

/-- Claim C3 (amended): the entry point passes `(max_iterations + 1) * 2`
as the recursion limit, and a run exceeding it is caught by the same
top-level handler as every other exception, producing the identical
response for either failure kind in both verbose modes. -/
theorem recursion_limit_amended (max_iterations : Nat) (v : Bool) (msg : String) :
    recursion_limit max_iterations = (max_iterations + 1) * 2 ∧
    response_fn v (Except.error (GraphFailure.graphRecursionError msg)) =
      response_fn v (Except.error (GraphFailure.otherError msg)) := by
  refine ⟨rfl, ?_⟩
  cases v <;> rfl

/-- Claim C4: the additional instructions are appended only to the local
`_prompt_str`; the prompt actually handed to ChatPromptTemplate is the bare
custom system prompt, so the instructions never reach the language model. -/
theorem additional_instructions_dropped :
    systemPromptUsed cfgC4 = "S" ∧
    promptStrLocal cfgC4 = some "S EXTRA" ∧
    systemPromptUsed cfgC4 ≠ "S EXTRA" := by
  refine ⟨by decide, by decide, by decide⟩

/-- Claim C5 counterexample: supplying the empty string as the custom
system_prompt — a supplied custom prompt that certainly fails the
placeholder validation — raises nothing: `if config.system_prompt:`
(register.py line 76) tests Python truthiness, so the empty prompt skips
validation, the default prompt is used, and construction proceeds straight
to obtaining the LLM client with no ValueError. -/
theorem prompt_validation_empty_cex :
    validate_system_prompt "" = false ∧
    buildEvents cfgC5empty =
      [BuildEvent.gotLLM, BuildEvent.gotTools, BuildEvent.builtGraph] ∧
    BuildEvent.raisedValueError ∉ buildEvents cfgC5empty := by
  refine ⟨by decide, by decide, by decide⟩

/-- Claim C5 (amended): with a supplied, non-empty custom system prompt,
failing placeholder validation raises ValueError as the only construction
event — strictly before the LLM client is obtained, tools are fetched or
the graph is built — and a valid non-empty custom prompt never raises at
this point; a supplied empty prompt is falsy to `if config.system_prompt:`,
so it is treated as absent and never raises either. -/
theorem prompt_validation_before_llm (cfg : ReWOOAgentWorkflowConfig) (sp : String)
    (hsp : cfg.system_prompt = some sp) :
    (sp ≠ "" → validate_system_prompt sp = false →
      buildEvents cfg = [BuildEvent.raisedValueError]) ∧
    (sp ≠ "" → validate_system_prompt sp = true →
      BuildEvent.raisedValueError ∉ buildEvents cfg) ∧
    (sp = "" → BuildEvent.raisedValueError ∉ buildEvents cfg) := by
  refine ⟨?_, ?_, ?_⟩
  · intro hne hval
    simp [buildEvents, hsp, hne, hval]
  · intro hne hval
    simp [buildEvents, hsp, hne, hval]
  · intro hemp
    simp [buildEvents, hsp, hemp]

/-- Claim C5 witness: a non-empty custom prompt with no placeholders raises
before any client is obtained. -/
theorem prompt_validation_before_llm_witness :
    buildEvents cfgC5 = [BuildEvent.raisedValueError] :=
  (prompt_validation_before_llm cfgC5 "hello" rfl).1 (by decide) (by decide)

/-- Claim C8: create_job stores the new job under the returned id with
status SUBMITTED, no error, no output path, and the expiry clamped by
`max(MIN_EXPIRY, min(expiry_seconds, MAX_EXPIRY))`, which always lies in
[600, 86400]. -/
theorem create_job_spec (store : JobStore) (cf jid : String) (now : Nat) (e : Int) :
    (create_job store cf jid now e).1 = jid ∧
    dictLookup ((create_job store cf jid now e).2)._jobs jid =
      some { job_id := jid
             status := JobStatus.submitted
             config_file := cf
             created_at := now
             updated_at := now
             error := none
             output_path := none
             expiry_seconds := max MIN_EXPIRY (min e MAX_EXPIRY) } ∧
    MIN_EXPIRY ≤ max MIN_EXPIRY (min e MAX_EXPIRY) ∧
    max MIN_EXPIRY (min e MAX_EXPIRY) ≤ MAX_EXPIRY := by
  refine ⟨rfl, ?_, le_max_left _ _, ?_⟩
  · exact dictLookup_dictInsert store._jobs jid _
  · have h1 : min e MAX_EXPIRY ≤ MAX_EXPIRY := min_le_right _ _
    have h2 : MIN_EXPIRY ≤ MAX_EXPIRY := by norm_num [MIN_EXPIRY, MAX_EXPIRY]
    exact max_le h2 h1

/-- Claim C7: whenever the store holds at least one finished (non-active)
job, cleanup_expired_jobs raises a TypeError from its first subscript into
a JobInfo instead of removing anything. -/
theorem cleanup_expired_jobs_fails (store : JobStore) (now : Nat)
    (h : store._jobs.any (fun p => !(activeStatus p.2.status)) = true) :
    cleanup_expired_jobs store now =
      Except.error (PyError.typeError "JobInfo object is not subscriptable") := by
  have hfil : store._jobs.filter (fun p => !(activeStatus p.2.status)) ≠ [] := by
    rcases List.any_eq_true.mp h with ⟨p, hp, hpred⟩
    exact List.ne_nil_of_mem (List.mem_filter.mpr ⟨hp, hpred⟩)
  rcases hcons : store._jobs.filter (fun p => !(activeStatus p.2.status)) with _ | ⟨c, rest⟩
  · exact absurd hcons hfil
  · have hdef : cleanup_expired_jobs store now =
        (sortKeyE (fun p => jobInfoGetItem p.2 "created_at")
          (store._jobs.filter (fun p => !(activeStatus p.2.status))) >>=
            fun _ => Except.ok store) := rfl
    rw [hdef, hcons]
    rfl

/-- Claim C7 witness: a store with one finished job makes cleanup raise. -/
theorem cleanup_expired_jobs_fails_witness :
    cleanup_expired_jobs storeC7 100 =
      Except.error (PyError.typeError "JobInfo object is not subscriptable") :=
  cleanup_expired_jobs_fails storeC7 100 (by decide)

/-- Claim C9: an empty DataFrame yields no items; in the structured case
exactly the rows passing the question filter are kept, so every returned
item has a non-blank question; unstructured rows are never filtered. -/
theorem get_eval_input_from_df_spec (structured : Bool) (df : List EvalRow) :
    (get_eval_input_from_df structured []).eval_input_items = [] ∧
    (get_eval_input_from_df true df).eval_input_items =
      (df.filter questionOk).map (create_eval_item true) ∧
    (∀ it ∈ (get_eval_input_from_df true df).eval_input_items,
      pstrip it.input_obj ≠ "") ∧
    (get_eval_input_from_df false df).eval_input_items =
      df.map (create_eval_item false) := by
  refine ⟨by simp [get_eval_input_from_df], ?_, ?_, ?_⟩
  · cases df <;> simp [get_eval_input_from_df]
  · intro it hit
    cases df with
    | nil => simp [get_eval_input_from_df] at hit
    | cons r0 rest =>
      simp only [get_eval_input_from_df, List.isEmpty_cons, if_true, if_false,
        Bool.false_eq_true, ite_false, ite_true] at hit
      rcases List.mem_map.mp hit with ⟨r, hr, hcr⟩
      have hq : questionOk r = true := (List.mem_filter.mp hr).2
      rcases hr' : r.question with _ | q
      · rw [questionOk, hr'] at hq
        simp at hq
      · rw [questionOk, hr'] at hq
        have hq2 : (if pstrip q = "" then false else true) = true := hq
        have hne : pstrip q ≠ "" := by
          intro hEq
          rw [if_pos hEq] at hq2
          exact Bool.false_ne_true hq2
        have : it.input_obj = q := by
          rw [← hcr]
          simp [create_eval_item, rowGet, hr']
        rw [this]
        exact hne
  · cases df <;> simp [get_eval_input_from_df]

/-- Claim C9 witness: on a concrete structured dataset the blank-question
row is dropped and the surviving item has a non-blank question. -/
theorem get_eval_input_from_df_spec_witness :
    (get_eval_input_from_df true dfC9).eval_input_items =
      (dfC9.filter questionOk).map (create_eval_item true) :=
  (get_eval_input_from_df_spec true dfC9).2.1

/-- Claim C10: publish_ground_truth returns a JSON string serialized with
the id, question and answer keys for every input — the unstructured guard
is a bare expression, not a return — and thus never returns None. -/
theorem publish_ground_truth_total (structured : Bool)
    (idk qk ak : String) (inp : EvalInput) :
    publish_ground_truth structured idk qk ak inp =
      some (publishGroundTruthJson idk qk ak inp) ∧
    publish_ground_truth false idk qk ak inp ≠ none := by
  exact ⟨rfl, by simp [publish_ground_truth]⟩

-- ===================================================================
-- Basic list and character-class lemmas for the pattern proofs.
-- ===================================================================

/-- Character membership in a takeWhile run satisfies the class. -/
theorem tw_mem {p : Char → Bool} {l : List Char} {x : Char}
    (hx : x ∈ l.takeWhile p) : p x = true := by
  induction l with
  | nil => simp [List.takeWhile] at hx
  | cons a as ih =>
    rw [List.takeWhile_cons] at hx
    by_cases ha : p a
    · rw [if_pos ha] at hx
      rcases List.mem_cons.mp hx with h | h
      · rw [h]; exact ha
      · exact ih h
    · rw [if_neg ha] at hx
      simp at hx

/-- A takeWhile/dropWhile pair splits exactly at a segment of class
characters followed by a failing head. -/
theorem tw_all_append {p : Char → Bool} {a b : List Char}
    (ha : ∀ x ∈ a, p x = true) (hb : headNotP p b) :
    (a ++ b).takeWhile p = a ∧ (a ++ b).dropWhile p = b := by
  induction a with
  | nil =>
    cases b with
    | nil => exact ⟨rfl, rfl⟩
    | cons c r =>
      have hc : p c = false := hb
      constructor
      · rw [List.nil_append, List.takeWhile_cons, hc]; simp
      · rw [List.nil_append, List.dropWhile_cons, hc]; simp
  | cons x xs ih =>
    have hx : p x = true := ha x (by simp)
    have ih2 := ih (fun y hy => ha y (by simp [hy]))
    constructor
    · rw [List.cons_append, List.takeWhile_cons, hx]
      simp only [ite_true]
      rw [ih2.1]
    · rw [List.cons_append, List.dropWhile_cons, hx]
      simp only [ite_true]
      exact ih2.2

/-- prefB is exactly the prefix relation. -/
theorem prefB_iff : ∀ (a b : List Char), prefB a b = true ↔ ∃ t, b = a ++ t := by
  intro a
  induction a with
  | nil => intro b; simp [prefB]
  | cons x xs ih =>
    intro b
    cases b with
    | nil =>
      simp only [prefB]
      constructor
      · intro h; exact absurd h (by simp)
      · rintro ⟨t, ht⟩; simp at ht
    | cons y ys =>
      simp only [prefB]
      by_cases hxy : x = y
      · subst hxy
        rw [if_pos rfl, ih ys]
        constructor
        · rintro ⟨t, ht⟩
          exact ⟨t, by rw [List.cons_append, ht]⟩
        · rintro ⟨t, ht⟩
          rw [List.cons_append] at ht
          injection ht with h1 h2
          exact ⟨t, h2⟩
      · rw [if_neg hxy]
        constructor
        · intro h; exact absurd h (by simp)
        · rintro ⟨t, ht⟩
          rw [List.cons_append] at ht
          injection ht with h1 h2
          exact absurd h1.symm hxy

/-- Any prefix of a takeWhile run consists of class characters. -/
theorem take_mem_of_le_tw {p : Char → Bool} :
    ∀ (l : List Char) (k : Nat), k ≤ (l.takeWhile p).length →
      ∀ c ∈ l.take k, p c = true := by
  intro l
  induction l with
  | nil => intro k _ c hc; simp at hc
  | cons x xs ih =>
    intro k hk c hc
    cases k with
    | zero => simp at hc
    | succ n =>
      rw [List.takeWhile_cons] at hk
      by_cases hx : p x
      · rw [if_pos hx] at hk
        rw [List.length_cons, Nat.succ_le_succ_iff] at hk
        rw [List.take_succ_cons] at hc
        rcases List.mem_cons.mp hc with h | h
        · rw [h]; exact hx
        · exact ih n hk c h
      · rw [if_neg hx] at hk
        simp at hk

/-- expectChar succeeds exactly on the expected head. -/
theorem expectChar_some {ch : Char} {cs r : List Char} :
    expectChar ch cs = some r ↔ cs = ch :: r := by
  cases cs with
  | nil => simp [expectChar]
  | cons x xs =>
    simp only [expectChar]
    by_cases hx : x = ch
    · subst hx
      simp
    · rw [if_neg hx]
      constructor
      · intro h; exact absurd h (by simp)
      · intro h
        injection h with h1 h2
        exact absurd h1 hx

/-- Soundness of takeRun: the output splits the input at a nonempty run of
class characters. -/
theorem takeRun_sound {p : Char → Bool} {cs run r : List Char}
    (h : takeRun p cs = some (run, r)) :
    cs = run ++ r ∧ run ≠ [] ∧ (∀ x ∈ run, p x = true) := by
  unfold takeRun at h
  by_cases he : (cs.takeWhile p).isEmpty
  · rw [if_pos he] at h; exact absurd h (by simp)
  · rw [if_neg he] at h
    injection h with h2
    injection h2 with hrun hr
    refine ⟨?_, ?_, ?_⟩
    · rw [← hrun, ← hr, List.takeWhile_append_dropWhile]
    · intro hnil
      rw [hnil] at hrun
      rw [hrun] at he
      simp at he
    · intro x hx
      rw [← hrun] at hx
      exact tw_mem hx

/-- Completeness of takeRun on a pre-split input. -/
theorem takeRun_complete {p : Char → Bool} {a b : List Char}
    (ha : ∀ x ∈ a, p x = true) (hne : a ≠ []) (hb : headNotP p b) :
    takeRun p (a ++ b) = some (a, b) := by
  have h := tw_all_append ha hb
  have hne2 : a.isEmpty = false := by
    cases a with
    | nil => exact absurd rfl hne
    | cons x xs => rfl
  unfold takeRun
  simp only [h.1, h.2, hne2]
  simp

/-- dropWhile by whitespace of a whitespace segment followed by a
non-whitespace head. -/
theorem skipWs_all_append {w : List Char} {b : List Char}
    (hw : WsStr w) (hb : headNotP isWsC b) : skipWs (w ++ b) = b :=
  (tw_all_append hw hb).2

/-- Whitespace characters enumerated. -/
theorem ws_cases {c : Char} (h : isWsC c = true) :
    c = ' ' ∨ c = '\t' ∨ c = '\n' ∨ c = '\r' ∨ c = '\x0B' ∨ c = '\x0C' := by
  simpa [isWsC] using h

/-- Whitespace is not a digit. -/
theorem ws_not_dig {c : Char} (h : isWsC c = true) : isDigC c = false := by
  rcases ws_cases h with h1 | h1 | h1 | h1 | h1 | h1 <;> rw [h1] <;> decide

/-- Whitespace is not a word character. -/
theorem ws_not_word {c : Char} (h : isWsC c = true) : isWordC c = false := by
  rcases ws_cases h with h1 | h1 | h1 | h1 | h1 | h1 <;> rw [h1] <;> decide

/-- Word characters are not whitespace. -/
theorem word_not_ws {c : Char} (h : isWordC c = true) : isWsC c = false := by
  cases hws : isWsC c with
  | false => rfl
  | true => rw [ws_not_word hws] at h; exact absurd h (by simp)

/-- A whitespace segment followed by a character outside the class `p`
gives a failing head for `p`, provided whitespace is outside `p`. -/
theorem headNotP_ws_append {p : Char → Bool} {w : List Char} {c : Char} {l : List Char}
    (hw : WsStr w) (hpc : p c = false) (hws : ∀ x, isWsC x = true → p x = false) :
    headNotP p (w ++ c :: l) := by
  cases w with
  | nil => exact hpc
  | cons x xs => exact hws x (hw x (by simp))

/-- expectChar on its expected character. -/
theorem expectChar_cons_self (c : Char) (l : List Char) :
    expectChar c (c :: l) = some l := by
  simp [expectChar]

/-- Soundness of the tail matcher: a successful tail match decomposes the
input exactly as the regex tail reads. -/
theorem matchTail_sound {cs : List Char} {tm : TailMatch}
    (h : matchTailREF cs = some tm) :
    ∃ w2 w3 w4 w5 : List Char,
      cs = w2 ++ ['#', 'E'] ++ tm.ds ++ w3 ++ ['='] ++ w4 ++ tm.tool ++ w5 ++
        ['['] ++ tm.inp ++ [']'] ++ tm.rem ∧
      WsStr w2 ∧ WsStr w3 ∧ WsStr w4 ∧ WsStr w5 ∧
      tm.ds ≠ [] ∧ (∀ c ∈ tm.ds, isDigC c = true) ∧
      tm.tool ≠ [] ∧ (∀ c ∈ tm.tool, isWordC c = true) ∧
      tm.inp ≠ [] ∧ (∀ c ∈ tm.inp, notRBr c = true) := by
  simp only [matchTailREF, Option.bind_eq_some] at h
  obtain ⟨r1, h1, r2, h2, pds, h3, r4, h4, ptool, h5, r6, h6, pinp, h7, r8, h8, hfin⟩ := h
  obtain ⟨ds, r3⟩ := pds
  obtain ⟨tool, r5⟩ := ptool
  obtain ⟨inp, r7⟩ := pinp
  injection hfin with hfin2
  subst hfin2
  have e1 : skipWs cs = '#' :: r1 := expectChar_some.mp h1
  have e2 : r1 = 'E' :: r2 := expectChar_some.mp h2
  obtain ⟨e3, hds, hdall⟩ := takeRun_sound h3
  have e4 : skipWs r3 = '=' :: r4 := expectChar_some.mp h4
  obtain ⟨e5, htool, htall⟩ := takeRun_sound h5
  have e6 : skipWs r5 = '[' :: r6 := expectChar_some.mp h6
  obtain ⟨e7, hinp, hiall⟩ := takeRun_sound h7
  have e8 : r7 = ']' :: r8 := expectChar_some.mp h8
  have hcsd : cs = cs.takeWhile isWsC ++ skipWs cs := by
    unfold skipWs
    exact (List.takeWhile_append_dropWhile (p := isWsC) (l := cs)).symm
  have hr3d : r3 = r3.takeWhile isWsC ++ skipWs r3 := by
    unfold skipWs
    exact (List.takeWhile_append_dropWhile (p := isWsC) (l := r3)).symm
  have hr4d : r4 = r4.takeWhile isWsC ++ skipWs r4 := by
    unfold skipWs
    exact (List.takeWhile_append_dropWhile (p := isWsC) (l := r4)).symm
  have hr5d : r5 = r5.takeWhile isWsC ++ skipWs r5 := by
    unfold skipWs
    exact (List.takeWhile_append_dropWhile (p := isWsC) (l := r5)).symm
  obtain ⟨w2, hA, hw2⟩ : ∃ w2, cs = w2 ++ '#' :: 'E' :: r2 ∧ WsStr w2 := by
    refine ⟨cs.takeWhile isWsC, ?_, fun c hc => tw_mem hc⟩
    conv_lhs => rw [hcsd]
    rw [e1, e2]
  obtain ⟨w3, hB, hw3⟩ : ∃ w3, r3 = w3 ++ '=' :: r4 ∧ WsStr w3 := by
    refine ⟨r3.takeWhile isWsC, ?_, fun c hc => tw_mem hc⟩
    conv_lhs => rw [hr3d]
    rw [e4]
  obtain ⟨w4, hC, hw4⟩ : ∃ w4, r4 = w4 ++ (tool ++ r5) ∧ WsStr w4 := by
    refine ⟨r4.takeWhile isWsC, ?_, fun c hc => tw_mem hc⟩
    conv_lhs => rw [hr4d]
    rw [e5]
  obtain ⟨w5, hD, hw5⟩ : ∃ w5, r5 = w5 ++ '[' :: (inp ++ ']' :: r8) ∧ WsStr w5 := by
    refine ⟨r5.takeWhile isWsC, ?_, fun c hc => tw_mem hc⟩
    conv_lhs => rw [hr5d]
    rw [e6, e7, e8]
  refine ⟨w2, w3, w4, w5, ?_, hw2, hw3, hw4, hw5, hds, hdall, htool, htall, hinp, hiall⟩
  rw [hA, e3, hB, hC, hD]
  simp [List.append_assoc]

/-- Completeness of the tail matcher on a pre-split input. -/
theorem matchTail_complete {w2 ds w3 w4 t w5 inp rem : List Char}
    (hw2 : WsStr w2) (hds : ds ≠ []) (hdall : ∀ c ∈ ds, isDigC c = true)
    (hw3 : WsStr w3) (hw4 : WsStr w4)
    (ht : t ≠ []) (htall : ∀ c ∈ t, isWordC c = true)
    (hw5 : WsStr w5) (hinp : inp ≠ []) (hiall : ∀ c ∈ inp, notRBr c = true) :
    matchTailREF (w2 ++ ['#', 'E'] ++ ds ++ w3 ++ ['='] ++ w4 ++ t ++ w5 ++
      ['['] ++ inp ++ [']'] ++ rem) = some ⟨ds, t, inp, rem⟩ := by
  have hA : w2 ++ ['#', 'E'] ++ ds ++ w3 ++ ['='] ++ w4 ++ t ++ w5 ++ ['['] ++
      inp ++ [']'] ++ rem =
      w2 ++ '#' :: 'E' :: (ds ++ (w3 ++ '=' :: (w4 ++ (t ++ (w5 ++ '[' ::
        (inp ++ ']' :: rem)))))) := by
    simp [List.append_assoc]
  have hTws : headNotP isWsC (t ++ (w5 ++ '[' :: (inp ++ ']' :: rem))) := by
    cases t with
    | nil => exact absurd rfl ht
    | cons c t' => exact word_not_ws (htall c (by simp))
  have E1 : skipWs (w2 ++ '#' :: 'E' :: (ds ++ (w3 ++ '=' :: (w4 ++ (t ++ (w5 ++ '[' ::
      (inp ++ ']' :: rem))))))) =
      '#' :: 'E' :: (ds ++ (w3 ++ '=' :: (w4 ++ (t ++ (w5 ++ '[' ::
      (inp ++ ']' :: rem)))))) :=
    skipWs_all_append hw2 (by decide : isWsC '#' = false)
  have E4 : takeRun isDigC (ds ++ (w3 ++ '=' :: (w4 ++ (t ++ (w5 ++ '[' ::
      (inp ++ ']' :: rem)))))) =
      some (ds, w3 ++ '=' :: (w4 ++ (t ++ (w5 ++ '[' :: (inp ++ ']' :: rem))))) :=
    takeRun_complete hdall hds
      (headNotP_ws_append hw3 (by decide : isDigC '=' = false) (fun _ h => ws_not_dig h))
  have E5 : skipWs (w3 ++ '=' :: (w4 ++ (t ++ (w5 ++ '[' :: (inp ++ ']' :: rem))))) =
      '=' :: (w4 ++ (t ++ (w5 ++ '[' :: (inp ++ ']' :: rem)))) :=
    skipWs_all_append hw3 (by decide : isWsC '=' = false)
  have E7 : skipWs (w4 ++ (t ++ (w5 ++ '[' :: (inp ++ ']' :: rem)))) =
      t ++ (w5 ++ '[' :: (inp ++ ']' :: rem)) :=
    skipWs_all_append hw4 hTws
  have E8 : takeRun isWordC (t ++ (w5 ++ '[' :: (inp ++ ']' :: rem))) =
      some (t, w5 ++ '[' :: (inp ++ ']' :: rem)) :=
    takeRun_complete htall ht
      (headNotP_ws_append hw5 (by decide : isWordC '[' = false) (fun _ h => ws_not_word h))
  have E9 : skipWs (w5 ++ '[' :: (inp ++ ']' :: rem)) = '[' :: (inp ++ ']' :: rem) :=
    skipWs_all_append hw5 (by decide : isWsC '[' = false)
  have E11 : takeRun notRBr (inp ++ ']' :: rem) = some (inp, ']' :: rem) :=
    takeRun_complete hiall hinp (by decide : notRBr ']' = false)
  rw [hA]
  simp only [matchTailREF, E1, expectChar_cons_self, Option.some_bind, E4, E5, E7,
    E8, E9, E11]

/-- Soundness of the description-extent search. -/
theorem tryDlen_sound :
    ∀ (n : Nat) {s d : List Char} {tm : TailMatch},
      tryDlen s n = some (d, tm) →
      ∃ k, 1 ≤ k ∧ k ≤ n ∧ d = s.take k ∧ matchTailREF (s.drop k) = some tm := by
  intro n
  induction n with
  | zero => intro s d tm h; simp [tryDlen] at h
  | succ m ih =>
    intro s d tm h
    rw [tryDlen] at h
    cases hm : matchTailREF (s.drop (m + 1)) with
    | some tm' =>
      rw [hm] at h
      simp only [Option.some.injEq] at h
      injection h with hd htm
      exact ⟨m + 1, by omega, le_refl _, hd.symm, by rw [hm, htm]⟩
    | none =>
      rw [hm] at h
      obtain ⟨k, hk1, hk2, hk3, hk4⟩ := ih h
      exact ⟨k, hk1, by omega, hk3, hk4⟩

/-- Completeness of the description-extent search. -/
theorem tryDlen_complete :
    ∀ (n : Nat) {s : List Char} {k : Nat},
      1 ≤ k → k ≤ n → (matchTailREF (s.drop k)).isSome = true →
      (tryDlen s n).isSome = true := by
  intro n
  induction n with
  | zero => intro s k hk1 hk2 _; omega
  | succ m ih =>
    intro s k hk1 hk2 hsome
    rw [tryDlen]
    cases hm : matchTailREF (s.drop (m + 1)) with
    | some tm' => simp
    | none =>
      simp only []
      by_cases hkm : k = m + 1
      · rw [hkm, hm] at hsome
        simp at hsome
      · exact ih hk1 (by omega) hsome

/-- Soundness of descSearch: the description is a nonempty newline-free
prefix extent. -/
theorem descSearch_sound {s d : List Char} {tm : TailMatch}
    (h : descSearch s = some (d, tm)) :
    ∃ k, 1 ≤ k ∧ k ≤ (s.takeWhile notNl).length ∧ d = s.take k ∧
      matchTailREF (s.drop k) = some tm :=
  tryDlen_sound _ h

/-- Completeness of descSearch. -/
theorem descSearch_complete {s : List Char} {k : Nat}
    (hk1 : 1 ≤ k) (hk2 : k ≤ (s.takeWhile notNl).length)
    (hsome : (matchTailREF (s.drop k)).isSome = true) :
    (descSearch s).isSome = true :=
  tryDlen_complete _ hk1 hk2 hsome

/-- Soundness of the whitespace-extent search. -/
theorem trySkips_sound :
    ∀ (w : Nat) {r : List Char} {res : List Char × TailMatch},
      trySkips r w = some res →
      ∃ u, u ≤ w ∧ descSearch (r.drop u) = some res := by
  intro w
  induction w with
  | zero =>
    intro r res h
    rw [trySkips] at h
    exact ⟨0, le_refl _, by simpa using h⟩
  | succ m ih =>
    intro r res h
    rw [trySkips] at h
    cases hm : descSearch (r.drop (m + 1)) with
    | some res' =>
      rw [hm] at h
      injection h with h2
      exact ⟨m + 1, le_refl _, by rw [hm, h2]⟩
    | none =>
      rw [hm] at h
      obtain ⟨u, hu1, hu2⟩ := ih h
      exact ⟨u, by omega, hu2⟩

/-- Completeness of the whitespace-extent search. -/
theorem trySkips_complete :
    ∀ (w : Nat) {r : List Char} {u : Nat},
      u ≤ w → (descSearch (r.drop u)).isSome = true →
      (trySkips r w).isSome = true := by
  intro w
  induction w with
  | zero =>
    intro r u hu hsome
    rw [trySkips]
    have : u = 0 := by omega
    rw [this] at hsome
    simpa using hsome
  | succ m ih =>
    intro r u hu hsome
    rw [trySkips]
    cases hm : descSearch (r.drop (m + 1)) with
    | some res => simp
    | none =>
      simp only []
      by_cases hum : u = m + 1
      · rw [hum, hm] at hsome
        simp at hsome
      · exact ih (by omega) hsome

/-- A successful tail match leaves a remainder at least 8 characters
shorter than its input. -/
theorem matchTail_rem_lt {cs : List Char} {tm : TailMatch}
    (h : matchTailREF cs = some tm) : tm.rem.length + 8 ≤ cs.length := by
  obtain ⟨w2, w3, w4, w5, hall⟩ := matchTail_sound h
  have h1 : 0 < tm.ds.length := List.length_pos.mpr hall.2.2.2.2.2.1
  have h2 : 0 < tm.tool.length := List.length_pos.mpr hall.2.2.2.2.2.2.2.1
  have h3 : 0 < tm.inp.length := List.length_pos.mpr hall.2.2.2.2.2.2.2.2.2.1
  rw [hall.1]
  simp only [List.length_append, List.length_cons, List.length_nil]
  omega

/-- The empty text matches nothing. -/
theorem matchPlan_nil : matchPlanREF [] = none := rfl

/-- Soundness of the anchored matcher: a successful match decomposes the
input as the full pattern followed by the remainder, and the captured step
carries the description, the evidence token, the tool and the input of the
decomposition. -/
theorem matchPlan_sound {cs : List Char} {st : PlanStep} {rem : List Char}
    (h : matchPlanREF cs = some (st, rem)) :
    ∃ w1 d w2 ds w3 w4 t w5 inp : List Char,
      cs = planTok ++ w1 ++ d ++ w2 ++ ['#', 'E'] ++ ds ++ w3 ++ ['='] ++ w4 ++ t ++
        w5 ++ ['['] ++ inp ++ [']'] ++ rem ∧
      WsStr w1 ∧ WsStr w2 ∧ WsStr w3 ∧ WsStr w4 ∧ WsStr w5 ∧
      d ≠ [] ∧ (∀ c ∈ d, notNl c = true) ∧
      ds ≠ [] ∧ (∀ c ∈ ds, isDigC c = true) ∧
      t ≠ [] ∧ (∀ c ∈ t, isWordC c = true) ∧
      inp ≠ [] ∧ (∀ c ∈ inp, notRBr c = true) ∧
      st = ⟨d, '#' :: 'E' :: ds, t, inp⟩ := by
  unfold matchPlanREF at h
  by_cases hpre : prefB planTok cs = true
  case neg => rw [if_neg hpre] at h; exact absurd h (by simp)
  rw [if_pos hpre, Option.bind_eq_some] at h
  obtain ⟨dtm, hts, hfin⟩ := h
  obtain ⟨d, tm⟩ := dtm
  injection hfin with hfin2
  injection hfin2 with hst hrem
  obtain ⟨tl, htl⟩ := (prefB_iff _ _).mp hpre
  have hr5 : cs.drop 5 = tl := by
    rw [htl]
    exact List.drop_left' rfl
  rw [hr5] at hts
  obtain ⟨u, hu, hdesc⟩ := trySkips_sound _ hts
  obtain ⟨k, hk1, hk2, hkd, hmt⟩ := descSearch_sound hdesc
  obtain ⟨w2, w3, w4, w5, hdec, hw2, hw3, hw4, hw5, hds, hdall, htool, htall, hinp, hiall⟩ :=
    matchTail_sound hmt
  have hsnn : tl.drop u ≠ [] := by
    intro hnil
    rw [hnil, List.drop_nil] at hmt
    rw [show matchTailREF [] = none from rfl] at hmt
    exact Option.noConfusion hmt
  have hdne : d ≠ [] := by
    rw [hkd]
    intro hnil
    rcases List.take_eq_nil_iff.mp hnil with h0 | h0
    · omega
    · exact hsnn h0
  have hdnl : ∀ c ∈ d, notNl c = true := by
    rw [hkd]
    exact take_mem_of_le_tw (tl.drop u) k hk2
  refine ⟨tl.take u, d, w2, tm.ds, w3, w4, tm.tool, w5, tm.inp, ?_, ?_, hw2, hw3, hw4, hw5,
    hdne, hdnl, hds, hdall, htool, htall, hinp, hiall, ?_⟩
  · rw [htl, ← hrem]
    conv_lhs => rw [← List.take_append_drop u tl]
    conv_lhs => rw [← List.take_append_drop k (tl.drop u)]
    rw [← hkd, hdec]
    simp [List.append_assoc]
  · exact fun c hc => take_mem_of_le_tw tl u hu c hc
  · rw [← hst]

/-- Completeness of the anchored matcher on any text that starts with an
instance of the pattern. -/
theorem matchPlan_complete {w1 d w2 ds w3 w4 t w5 inp b : List Char}
    (hw1 : WsStr w1) (hd : d ≠ []) (hdnl : ∀ c ∈ d, notNl c = true)
    (hw2 : WsStr w2) (hds : ds ≠ []) (hdall : ∀ c ∈ ds, isDigC c = true)
    (hw3 : WsStr w3) (hw4 : WsStr w4)
    (ht : t ≠ []) (htall : ∀ c ∈ t, isWordC c = true)
    (hw5 : WsStr w5) (hinp : inp ≠ []) (hiall : ∀ c ∈ inp, notRBr c = true) :
    (matchPlanREF (planTok ++ (w1 ++ (d ++ (w2 ++ ['#', 'E'] ++ ds ++ w3 ++ ['='] ++
      w4 ++ t ++ w5 ++ ['['] ++ inp ++ [']'] ++ b))))).isSome = true := by
  have hmt : matchTailREF (w2 ++ ['#', 'E'] ++ ds ++ w3 ++ ['='] ++ w4 ++ t ++ w5 ++
      ['['] ++ inp ++ [']'] ++ b) = some ⟨ds, t, inp, b⟩ :=
    matchTail_complete hw2 hds hdall hw3 hw4 ht htall hw5 hinp hiall
  have hdrop5 : (planTok ++ (w1 ++ (d ++ (w2 ++ ['#', 'E'] ++ ds ++ w3 ++ ['='] ++
      w4 ++ t ++ w5 ++ ['['] ++ inp ++ [']'] ++ b)))).drop 5 =
      w1 ++ (d ++ (w2 ++ ['#', 'E'] ++ ds ++ w3 ++ ['='] ++ w4 ++ t ++ w5 ++ ['['] ++
        inp ++ [']'] ++ b)) := List.drop_left' rfl
  have hdropu : (w1 ++ (d ++ (w2 ++ ['#', 'E'] ++ ds ++ w3 ++ ['='] ++ w4 ++ t ++ w5 ++
      ['['] ++ inp ++ [']'] ++ b))).drop w1.length =
      d ++ (w2 ++ ['#', 'E'] ++ ds ++ w3 ++ ['='] ++ w4 ++ t ++ w5 ++ ['['] ++
        inp ++ [']'] ++ b) := List.drop_left _ _
  have hdropd : (d ++ (w2 ++ ['#', 'E'] ++ ds ++ w3 ++ ['='] ++ w4 ++ t ++ w5 ++ ['['] ++
      inp ++ [']'] ++ b)).drop d.length =
      w2 ++ ['#', 'E'] ++ ds ++ w3 ++ ['='] ++ w4 ++ t ++ w5 ++ ['['] ++
        inp ++ [']'] ++ b := List.drop_left _ _
  have hk2 : d.length ≤ ((d ++ (w2 ++ ['#', 'E'] ++ ds ++ w3 ++ ['='] ++ w4 ++ t ++ w5 ++
      ['['] ++ inp ++ [']'] ++ b)).takeWhile notNl).length := by
    rw [List.takeWhile_append_of_pos hdnl]
    simp
  have hds2 : (descSearch ((w1 ++ (d ++ (w2 ++ ['#', 'E'] ++ ds ++ w3 ++ ['='] ++ w4 ++
      t ++ w5 ++ ['['] ++ inp ++ [']'] ++ b))).drop w1.length)).isSome = true := by
    rw [hdropu]
    refine descSearch_complete (List.length_pos.mpr hd) hk2 ?_
    rw [hdropd, hmt]
    rfl
  have hu : w1.length ≤ ((w1 ++ (d ++ (w2 ++ ['#', 'E'] ++ ds ++ w3 ++ ['='] ++ w4 ++
      t ++ w5 ++ ['['] ++ inp ++ [']'] ++ b))).takeWhile isWsC).length := by
    rw [List.takeWhile_append_of_pos hw1]
    simp
  have hts : (trySkips ((planTok ++ (w1 ++ (d ++ (w2 ++ ['#', 'E'] ++ ds ++ w3 ++ ['='] ++
      w4 ++ t ++ w5 ++ ['['] ++ inp ++ [']'] ++ b)))).drop 5)
      (((planTok ++ (w1 ++ (d ++ (w2 ++ ['#', 'E'] ++ ds ++ w3 ++ ['='] ++ w4 ++ t ++
        w5 ++ ['['] ++ inp ++ [']'] ++ b)))).drop 5).takeWhile isWsC).length).isSome =
      true := by
    rw [hdrop5]
    exact trySkips_complete _ hu hds2
  unfold matchPlanREF
  rw [if_pos ((prefB_iff _ _).mpr ⟨_, rfl⟩)]
  obtain ⟨res, hres⟩ := Option.isSome_iff_exists.mp hts
  rw [hres]
  rfl

/-- Remainder of a successful anchored match is strictly shorter. -/
theorem matchPlan_rem_lt {cs : List Char} {st : PlanStep} {rem : List Char}
    (h : matchPlanREF cs = some (st, rem)) : rem.length < cs.length := by
  obtain ⟨w1, d, w2, ds, w3, w4, t, w5, inp, hall⟩ := matchPlan_sound h
  rw [hall.1]
  simp only [List.length_append, List.length_cons, List.length_nil, planTok]
  omega

/-- The fueled scanner is independent of the fuel once the fuel covers the
text length. -/
theorem findAllFuel_inv :
    ∀ (g g' : Nat) (cs : List Char), cs.length ≤ g → cs.length ≤ g' →
      rewooFindAllFuel g cs = rewooFindAllFuel g' cs := by
  intro g
  induction g with
  | zero =>
    intro g' cs hg _
    have : cs = [] := List.eq_nil_of_length_eq_zero (by omega)
    subst this
    cases g' <;> rfl
  | succ m ih =>
    intro g' cs hg hg'
    cases cs with
    | nil => cases g' <;> rfl
    | cons c cs' =>
      cases g' with
      | zero => simp at hg'
      | succ m' =>
        rw [List.length_cons] at hg hg'
        cases hm : matchPlanREF (c :: cs') with
        | some pr =>
          obtain ⟨st, rem⟩ := pr
          have hlt : rem.length < (c :: cs').length := matchPlan_rem_lt hm
          rw [List.length_cons] at hlt
          simp only [rewooFindAllFuel, hm]
          rw [ih m' rem (by omega) (by omega)]
        | none =>
          simp only [rewooFindAllFuel, hm]
          exact ih m' cs' (by omega) (by omega)

/-- Scanner step on a successful match: record the step and resume after
the match. -/
theorem findall_cons_some {c : Char} {cs : List Char} {st : PlanStep} {rem : List Char}
    (hm : matchPlanREF (c :: cs) = some (st, rem)) :
    rewooFindAll (c :: cs) = st :: rewooFindAll rem := by
  have hlt : rem.length < (c :: cs).length := matchPlan_rem_lt hm
  rw [List.length_cons] at hlt
  show rewooFindAllFuel (c :: cs).length (c :: cs) = _
  rw [List.length_cons]
  simp only [rewooFindAllFuel, hm]
  rw [findAllFuel_inv cs.length rem.length rem (by omega) (le_refl _)]
  rfl

/-- Scanner step on a failed match: advance one character. -/
theorem findall_cons_none {c : Char} {cs : List Char}
    (hm : matchPlanREF (c :: cs) = none) :
    rewooFindAll (c :: cs) = rewooFindAll cs := by
  show rewooFindAllFuel (c :: cs).length (c :: cs) = _
  rw [List.length_cons]
  simp only [rewooFindAllFuel, hm]
  rfl

/-- A match anywhere in a suffix is found by the search. -/
theorem hasPlanMatch_app {s : List Char}
    (h : (matchPlanREF s).isSome = true) :
    ∀ a : List Char, hasPlanMatch (a ++ s) = true := by
  intro a
  induction a with
  | nil =>
    cases s with
    | nil => rw [matchPlan_nil] at h; simp at h
    | cons c cs' =>
      rw [List.nil_append]
      simp [hasPlanMatch, h]
  | cons x a' ih =>
    rw [List.cons_append]
    simp [hasPlanMatch, ih]

/-- Soundness half of the grammar characterization. -/
theorem hasPlanMatch_sound {cs : List Char} (h : hasPlanMatch cs = true) :
    PlanDecomp cs := by
  induction cs with
  | nil => simp [hasPlanMatch] at h
  | cons c cs' ih =>
    rw [hasPlanMatch] at h
    rcases Bool.or_eq_true_iff.mp h with h1 | h1
    · obtain ⟨pr, hpr⟩ := Option.isSome_iff_exists.mp h1
      obtain ⟨st, rem⟩ := pr
      obtain ⟨w1, d, w2, ds, w3, w4, t, w5, inp, heq, hw1, hw2, hw3, hw4, hw5,
        hd, hdnl, hds, hdall, ht, htall, hinp, hiall, _⟩ := matchPlan_sound hpr
      exact ⟨[], w1, d, w2, ds, w3, w4, t, w5, inp, rem, by simpa using heq,
        hw1, hw2, hw3, hw4, hw5, hd, hdnl, hds, hdall, ht, htall, hinp, hiall⟩
    · obtain ⟨a, w1, d, w2, ds, w3, w4, t, w5, inp, b, heq, hrest⟩ := ih h1
      refine ⟨c :: a, w1, d, w2, ds, w3, w4, t, w5, inp, b, ?_, hrest⟩
      rw [heq]
      simp [List.cons_append, List.append_assoc]

/-- The empty segment is whitespace. -/
theorem WsStr_nil : WsStr [] := fun c hc => absurd hc (List.not_mem_nil c)

/-- A one-character whitespace segment. -/
theorem WsStr_singleton {c : Char} (h : isWsC c = true) : WsStr [c] := by
  intro x hx
  rw [List.mem_singleton.mp hx]
  exact h

/-- Failing-head condition from a head fact. -/
theorem headNotP_cons {p : Char → Bool} {c : Char} {l : List Char}
    (h : p c = false) : headNotP p (c :: l) := by
  unfold headNotP
  exact h

/-- Claim C1 (amended): a text matches rewoo_plan_pattern exactly when it
contains, in order, the literal `Plan:`, optional whitespace, a non-empty
newline-free description, whitespace, `#E` followed by one or more digits,
`=`, a word-character tool name, and a bracket-delimited input that is
non-empty and free of `]`; the whitespace between components may contain
newlines, so a match may span several lines. -/
theorem rewoo_plan_pattern_matches_iff (cs : List Char) :
    hasPlanMatch cs = true ↔ PlanDecomp cs := by
  constructor
  · exact hasPlanMatch_sound
  · rintro ⟨a, w1, d, w2, ds, w3, w4, t, w5, inp, b, heq, hw1, hw2, hw3, hw4, hw5,
      hd, hdnl, hds, hdall, ht, htall, hinp, hiall⟩
    have hiso := matchPlan_complete (b := b) hw1 hd hdnl hw2 hds hdall hw3 hw4
      ht htall hw5 hinp hiall
    have heq2 : cs = a ++ (planTok ++ (w1 ++ (d ++ (w2 ++ ['#', 'E'] ++ ds ++ w3 ++
        ['='] ++ w4 ++ t ++ w5 ++ ['['] ++ inp ++ [']'] ++ b)))) := by
      rw [heq]
      simp [List.append_assoc]
    rw [heq2]
    exact hasPlanMatch_app hiso a

/-- Claim C1 counterexample: the single line `Plan: d #E1 = t[]` contains,
in order, every component the claim lists (with an empty bracket-delimited
input), yet the compiled pattern rejects it, because `[^\]]+` demands a
non-empty `]`-free input. -/
theorem rewoo_plan_pattern_claim_cex :
    ClaimLineGrammar ("Plan: d #E1 = t[]".toList) ∧
    hasPlanMatch ("Plan: d #E1 = t[]".toList) = false := by
  constructor
  · exact ⟨[], [' '], ['d'], [' '], ['1'], [' '], [' '], ['t'], [], [], [],
      by decide, WsStr_singleton (by decide), WsStr_singleton (by decide),
      WsStr_singleton (by decide), WsStr_singleton (by decide), WsStr_nil,
      by decide, by decide, by decide, by decide, by decide, by decide⟩
  · decide

/-- Claim C1 witness: the two-line text `Plan: go` / `#E1 = t[x]` (the format
of the prompt's own examples) is accepted by the pattern, and the amended
characterization produces its decomposition. -/
theorem rewoo_plan_pattern_matches_iff_witness :
    PlanDecomp ("Plan: go\n#E1 = t[x]".toList) :=
  (rewoo_plan_pattern_matches_iff _).mp (by decide)

/-- Unpacking of the well-formedness test of canonical steps. -/
theorem goodStep_elim {st : PlanStep} (h : goodStep st = true) :
    ∃ ds : List Char, st.evidence = '#' :: 'E' :: ds ∧ ds ≠ [] ∧
      (∀ c ∈ ds, isDigC c = true) ∧
      st.desc ≠ [] ∧ headNotP isWsC st.desc ∧ (∀ c ∈ st.desc, notNl c = true) ∧
      st.tool ≠ [] ∧ (∀ c ∈ st.tool, isWordC c = true) ∧
      st.tool_input ≠ [] ∧ (∀ c ∈ st.tool_input, notRBr c = true) := by
  simp only [goodStep, Bool.and_eq_true] at h
  obtain ⟨⟨⟨⟨⟨⟨⟨⟨⟨h1, h2⟩, h3⟩, h4⟩, h5⟩, h6⟩, h7⟩, h8⟩, h9⟩, h10⟩ := h
  obtain ⟨ds, hds⟩ := (prefB_iff _ _).mp h4
  have hdrop : st.evidence.drop 2 = ds := by rw [hds]; rfl
  rw [hdrop] at h5 h6
  refine ⟨ds, by rw [hds]; rfl, ?_, ?_, ?_, ?_, ?_, ?_, ?_, ?_, ?_⟩
  · intro hnil
    rw [hnil] at h5
    simp at h5
  · exact fun c hc => List.all_eq_true.mp h6 c hc
  · intro hnil
    rw [hnil] at h1
    simp at h1
  · cases hdcase : st.desc with
    | nil => rw [hdcase] at h1; simp at h1
    | cons c0 d' =>
      rw [hdcase] at h2
      simp only [List.take_succ_cons, List.take_zero, List.any_cons, List.any_nil,
        Bool.or_false, Bool.not_eq_true'] at h2
      exact h2
  · exact fun c hc => List.all_eq_true.mp h3 c hc
  · intro hnil
    rw [hnil] at h7
    simp at h7
  · exact fun c hc => List.all_eq_true.mp h8 c hc
  · intro hnil
    rw [hnil] at h9
    simp at h9
  · exact fun c hc => List.all_eq_true.mp h10 c hc

/-- The greedy matcher consumes a canonically rendered step exactly,
capturing its components verbatim (core form on destructured fields). -/
theorem render_match_core {c0 : Char} {d' ds t inp rest : List Char}
    (hc0 : isWsC c0 = false) (hdnl : ∀ c ∈ (c0 :: d'), notNl c = true)
    (hds : ds ≠ []) (hdall : ∀ c ∈ ds, isDigC c = true)
    (ht : t ≠ []) (htall : ∀ c ∈ t, isWordC c = true)
    (hinp : inp ≠ []) (hiall : ∀ c ∈ inp, notRBr c = true) :
    matchPlanREF (renderStep ⟨c0 :: d', '#' :: 'E' :: ds, t, inp⟩ ++ rest) =
      some (⟨c0 :: d', '#' :: 'E' :: ds, t, inp⟩, rest) := by
  have hshape : renderStep ⟨c0 :: d', '#' :: 'E' :: ds, t, inp⟩ ++ rest =
      planTok ++ (' ' :: ((c0 :: d') ++ ('\n' :: '#' :: 'E' ::
        (ds ++ (' ' :: '=' :: ' ' :: (t ++ ('[' :: (inp ++ (']' :: rest))))))))) := by
    simp [renderStep, List.append_assoc]
  rw [hshape]
  have hmt : matchTailREF ('\n' :: '#' :: 'E' ::
      (ds ++ (' ' :: '=' :: ' ' :: (t ++ ('[' :: (inp ++ (']' :: rest))))))) =
      some ⟨ds, t, inp, rest⟩ := by
    have hsh2 : ['\n'] ++ ['#', 'E'] ++ ds ++ [' '] ++ ['='] ++ [' '] ++ t ++
        ([] : List Char) ++ ['['] ++ inp ++ [']'] ++ rest =
        '\n' :: '#' :: 'E' :: (ds ++ (' ' :: '=' :: ' ' ::
          (t ++ ('[' :: (inp ++ (']' :: rest)))))) := by
      simp [List.append_assoc]
    rw [← hsh2]
    exact matchTail_complete (WsStr_singleton (by decide)) hds hdall
      (WsStr_singleton (by decide)) (WsStr_singleton (by decide))
      ht htall WsStr_nil hinp hiall
  have hsdrop : ((c0 :: d') ++ ('\n' :: '#' :: 'E' ::
      (ds ++ (' ' :: '=' :: ' ' :: (t ++ ('[' :: (inp ++ (']' :: rest)))))))).drop
        (d'.length + 1) =
      '\n' :: '#' :: 'E' :: (ds ++ (' ' :: '=' :: ' ' ::
        (t ++ ('[' :: (inp ++ (']' :: rest)))))) := by
    have h2 : (c0 :: d').length = d'.length + 1 := by simp
    rw [← h2]
    exact List.drop_left _ _
  have hstake : ((c0 :: d') ++ ('\n' :: '#' :: 'E' ::
      (ds ++ (' ' :: '=' :: ' ' :: (t ++ ('[' :: (inp ++ (']' :: rest)))))))).take
        (d'.length + 1) = c0 :: d' := by
    have h2 : (c0 :: d').length = d'.length + 1 := by simp
    rw [← h2]
    exact List.take_left _ _
  have htwd : ((c0 :: d') ++ ('\n' :: '#' :: 'E' ::
      (ds ++ (' ' :: '=' :: ' ' :: (t ++ ('[' :: (inp ++ (']' :: rest)))))))).takeWhile
        notNl = c0 :: d' :=
    (tw_all_append hdnl (headNotP_cons (by decide))).1
  have hdesc : descSearch ((c0 :: d') ++ ('\n' :: '#' :: 'E' ::
      (ds ++ (' ' :: '=' :: ' ' :: (t ++ ('[' :: (inp ++ (']' :: rest)))))))) =
      some (c0 :: d', ⟨ds, t, inp, rest⟩) := by
    unfold descSearch
    rw [htwd]
    rw [show (c0 :: d').length = d'.length + 1 from by simp]
    rw [tryDlen]
    rw [hsdrop, hmt, hstake]
  have htw : (' ' :: ((c0 :: d') ++ ('\n' :: '#' :: 'E' ::
      (ds ++ (' ' :: '=' :: ' ' :: (t ++ ('[' :: (inp ++ (']' :: rest))))))))).takeWhile
        isWsC = [' '] := by
    rw [List.takeWhile_cons_of_pos (by decide), List.cons_append,
      List.takeWhile_cons_of_neg (by simp [hc0])]
  have hdrop5 : (planTok ++ (' ' :: ((c0 :: d') ++ ('\n' :: '#' :: 'E' ::
      (ds ++ (' ' :: '=' :: ' ' :: (t ++ ('[' :: (inp ++ (']' :: rest)))))))))).drop 5 =
      ' ' :: ((c0 :: d') ++ ('\n' :: '#' :: 'E' ::
        (ds ++ (' ' :: '=' :: ' ' :: (t ++ ('[' :: (inp ++ (']' :: rest)))))))) :=
    List.drop_left' rfl
  unfold matchPlanREF
  rw [if_pos ((prefB_iff _ _).mpr ⟨_, rfl⟩)]
  rw [hdrop5, htw]
  rw [show ([' '] : List Char).length = 1 from rfl]
  rw [trySkips]
  rw [show (' ' :: ((c0 :: d') ++ ('\n' :: '#' :: 'E' ::
      (ds ++ (' ' :: '=' :: ' ' :: (t ++ ('[' :: (inp ++ (']' :: rest))))))))).drop
        (0 + 1) =
      (c0 :: d') ++ ('\n' :: '#' :: 'E' ::
        (ds ++ (' ' :: '=' :: ' ' :: (t ++ ('[' :: (inp ++ (']' :: rest))))))) from rfl]
  rw [hdesc]
  rfl

/-- The greedy matcher consumes a canonically rendered well-formed step
exactly. -/
theorem render_match {st : PlanStep} (hst : goodStep st = true) (rest : List Char) :
    matchPlanREF (renderStep st ++ rest) = some (st, rest) := by
  obtain ⟨ds, hev, hds, hdall, hd, hdh, hdnl, ht, htall, hinp, hiall⟩ := goodStep_elim hst
  obtain ⟨d, ev, t, inp⟩ := st
  simp only at hev hds hdall hd hdh hdnl ht htall hinp hiall
  subst hev
  cases d with
  | nil => exact absurd rfl hd
  | cons c0 d' =>
    exact render_match_core hdh hdnl hds hdall ht htall hinp hiall

/-- Appending past the token length does not change a prefix test. -/
theorem prefB_append_longer :
    ∀ (tok s r : List Char), tok.length ≤ s.length →
      prefB tok (s ++ r) = prefB tok s := by
  intro tok
  induction tok with
  | nil => intro s r _; rfl
  | cons x xs ih =>
    intro s r hlen
    cases s with
    | nil => simp at hlen
    | cons y ys =>
      rw [List.cons_append]
      show (if x = y then prefB xs (ys ++ r) else false) =
        (if x = y then prefB xs ys else false)
      by_cases hxy : x = y
      · rw [if_pos hxy, if_pos hxy]
        exact ih ys r (by simpa using hlen)
      · rw [if_neg hxy, if_neg hxy]

/-- No occurrence of `Plan:` can straddle the boundary between a token-free
segment and a following text that is empty or starts with `P`. -/
theorem prefB_planTok_straddle {s r : List Char}
    (hs : s ≠ []) (hpre : prefB planTok s = false)
    (hr : r = [] ∨ ∃ r2, r = 'P' :: r2) :
    prefB planTok (s ++ r) = false := by
  by_cases hlen : 5 ≤ s.length
  · rw [prefB_append_longer planTok s r hlen]
    exact hpre
  · rcases hr with hr | ⟨r2, hr⟩
    · subst hr
      rw [List.append_nil]
      exact hpre
    · subst hr
      rcases s with _ | ⟨a, _ | ⟨b, _ | ⟨c, _ | ⟨d, _ | ⟨e, s'⟩⟩⟩⟩⟩
      · exact absurd rfl hs
      · simp [prefB, planTok]
      · simp [prefB, planTok]
      · simp [prefB, planTok]
      · simp [prefB, planTok]
      · exfalso
        apply hlen
        simp

/-- The scanner ignores a leading prose segment that contains no `Plan:`
token, provided the following text is empty or starts at a `Plan:`. -/
theorem findall_skip_prose :
    ∀ (p r : List Char), hasTok planTok p = false →
      (r = [] ∨ ∃ r2, r = 'P' :: r2) →
      rewooFindAll (p ++ r) = rewooFindAll r := by
  intro p
  induction p with
  | nil => intro r _ _; rw [List.nil_append]
  | cons c p' ih =>
    intro r htok hr
    rw [hasTok, Bool.or_eq_false_iff] at htok
    obtain ⟨hpre0, htok'⟩ := htok
    have hpre : prefB planTok ((c :: p') ++ r) = false :=
      prefB_planTok_straddle (by simp) hpre0 hr
    have hpre2 : prefB planTok (c :: (p' ++ r)) = false := by
      rw [← List.cons_append]
      exact hpre
    have hm : matchPlanREF ((c :: p') ++ r) = none := by
      unfold matchPlanREF
      rw [if_neg (by simp [hpre, hpre2])]
    rw [List.cons_append] at hm ⊢
    rw [findall_cons_none hm]
    exact ih r htok' hr

/-- Scanner step on any nonempty text whose head matches. -/
theorem findall_eq_cons_of_match {cs : List Char} {st : PlanStep} {rem : List Char}
    (hne : cs ≠ []) (hm : matchPlanREF cs = some (st, rem)) :
    rewooFindAll cs = st :: rewooFindAll rem := by
  cases cs with
  | nil => exact absurd rfl hne
  | cons c cs' => exact findall_cons_some hm

/-- Claim C2 (amended): on a planner text assembled from prose segments free
of the `Plan:` token and canonically rendered well-formed steps (the format
of the prompt's own examples), the findall scan over rewoo_plan_pattern
returns exactly those steps, in textual order, with their descriptions,
evidence identifiers, tool names and tool inputs verbatim; the surrounding
prose is ignored. -/
theorem rewoo_findall_canonical :
    ∀ (blocks : List (PlanStep × List Char)) (p0 : List Char),
      hasTok planTok p0 = false →
      (∀ pr ∈ blocks, goodStep pr.1 = true ∧ hasTok planTok pr.2 = false) →
      rewooFindAll (canonText p0 blocks) = blocks.map Prod.fst := by
  intro blocks
  induction blocks with
  | nil =>
    intro p0 hp0 _
    rw [canonText]
    have h := findall_skip_prose p0 [] hp0 (Or.inl rfl)
    rw [List.append_nil] at h
    rw [h]
    rfl
  | cons pr rest ih =>
    obtain ⟨st, p⟩ := pr
    intro p0 hp0 hall
    have hst : goodStep st = true := (hall (st, p) (by simp)).1
    have hp : hasTok planTok p = false := (hall (st, p) (by simp)).2
    rw [canonText, List.append_assoc]
    obtain ⟨ds, hev, _⟩ := goodStep_elim hst
    have hrP : ∃ r2, renderStep st ++ canonText p rest = 'P' :: r2 := by
      refine ⟨'l' :: 'a' :: 'n' :: ':' :: (' ' :: (st.desc ++ ('\n' :: st.evidence ++
        (' ' :: '=' :: ' ' :: st.tool ++ ('[' :: st.tool_input ++ (']' ::
          canonText p rest)))))), ?_⟩
      simp [renderStep, planTok, List.append_assoc]
    rw [findall_skip_prose p0 _ hp0 (Or.inr hrP)]
    have hne : renderStep st ++ canonText p rest ≠ [] := by
      obtain ⟨r2, hr2⟩ := hrP
      rw [hr2]
      simp
    rw [findall_eq_cons_of_match hne (render_match hst (canonText p rest))]
    rw [ih p hp (fun q hq => hall q (by simp [hq]))]
    rfl

/-- Claim C2 counterexample: the single-line text below is the
concatenation of two complete plan-line-grammar occurrences separated by a
space, yet the scan returns exactly one step — the greedy description
swallows the whole first occurrence, so the step's groups agree with
neither occurrence. -/
theorem rewoo_findall_merge_cex :
    ("Plan: a #E1 = t[x] Plan: b #E2 = u[y]".toList =
      "Plan: a #E1 = t[x]".toList ++ (' ' :: "Plan: b #E2 = u[y]".toList)) ∧
    FullPlanDecomp ("Plan: a #E1 = t[x]".toList) ∧
    FullPlanDecomp ("Plan: b #E2 = u[y]".toList) ∧
    rewooFindAll ("Plan: a #E1 = t[x] Plan: b #E2 = u[y]".toList) =
      [⟨"a #E1 = t[x] Plan: b ".toList, "#E2".toList, "u".toList, "y".toList⟩] := by
  refine ⟨by decide, ?_, ?_, by decide⟩
  · exact ⟨[' '], ['a'], [' '], ['1'], [' '], [' '], ['t'], [], ['x'],
      by decide, WsStr_singleton (by decide), WsStr_singleton (by decide),
      WsStr_singleton (by decide), WsStr_singleton (by decide), WsStr_nil,
      by decide, by decide, by decide, by decide, by decide, by decide,
      by decide, by decide⟩
  · exact ⟨[' '], ['b'], [' '], ['2'], [' '], [' '], ['u'], [], ['y'],
      by decide, WsStr_singleton (by decide), WsStr_singleton (by decide),
      WsStr_singleton (by decide), WsStr_singleton (by decide), WsStr_nil,
      by decide, by decide, by decide, by decide, by decide, by decide,
      by decide, by decide⟩

/-- Claim C2 witness: a concrete two-step canonical text with prose before,
between and after the steps parses to exactly its two steps in order. -/
theorem rewoo_findall_canonical_witness :
    rewooFindAll (canonText wP0 wSteps) = wSteps.map Prod.fst :=
  rewoo_findall_canonical wSteps wP0 (by decide) (by decide)
